import Mathlib

/-!
Verification of the plugin-registry audit script.

This file gives a shallow embedding of the audit routine of the repository
(the `PluginAuditor` class: `makeRequest`, `auditPlugin`,
`normalizeRepositoryUrl`, and the metadata assembly), over a model of
JavaScript values, and proves the specified properties about it.

Modelling conventions:
* JavaScript values are modelled by `JVal` (null, undefined, booleans,
  numbers as integers, strings, arrays, objects as association lists).
* Property access `v.k` is modelled by `jget`, which fails (throws a
  TypeError) exactly when `v` is null or undefined; the text of engine
  error messages is abstracted by the parameters `tem` (property read on
  null/undefined) and `nfm` (call of a non-function), which all theorems
  quantify over.
* The three network requests made by `auditPlugin` are modelled by an
  environment `Env` holding the outcome of each request in program order;
  the list of requests actually issued during a run is returned in the
  `log` field of the output.
* A JavaScript async function that throws/rejects is modelled by
  `Except.error`; a function that resolves is `Except.ok`.
* `Date.prototype.toLocaleString` (locale dependent) and `JSON.parse`
  are external to the audited logic and are passed as parameters `fmt`
  and `parse` to the model of `makeRequest`.
-/

/-- Model of a JavaScript (JSON-like) runtime value. -/
inductive JVal where
  | vNull
  | vUndef
  | vBool (b : Bool)
  | vNum (n : Int)
  | vStr (s : String)
  | vArr (xs : List JVal)
  | vObj (fs : List (String × JVal))

/-- JavaScript truthiness of a value (`if (v)`, `!v`). -/
def JVal.truthy : JVal → Bool
  | .vNull => false
  | .vUndef => false
  | .vBool b => b
  | .vNum n => n != 0
  | .vStr s => !s.isEmpty
  | .vArr _ => true
  | .vObj _ => true

/-- `typeof v === "object"` (true for null, arrays and plain objects). -/
def JVal.isObjType : JVal → Bool
  | .vNull => true
  | .vArr _ => true
  | .vObj _ => true
  | _ => false

/-- `typeof v === "string"`. -/
def JVal.isStrType : JVal → Bool
  | .vStr _ => true
  | _ => false

/-- Property read `v.k`: throws a TypeError (message given by `tem`
applied to "null"/"undefined" and the key) when `v` is null or undefined,
yields the field of an object (or `undefined` when absent), and
`undefined` on other primitives/arrays for the keys the script uses. -/
def jget (tem : String → String → String) (v : JVal) (k : String) :
    Except String JVal :=
  match v with
  | .vNull => .error (tem "null" k)
  | .vUndef => .error (tem "undefined" k)
  | .vObj fs => .ok ((List.lookup k fs).getD JVal.vUndef)
  | _ => .ok JVal.vUndef

/-- Optional-chaining read `v?.k`: yields `undefined` instead of throwing
on null/undefined. -/
def jgetOpt (v : JVal) (k : String) : JVal :=
  match v with
  | .vNull => JVal.vUndef
  | .vUndef => JVal.vUndef
  | .vObj fs => (List.lookup k fs).getD JVal.vUndef
  | _ => JVal.vUndef

/-- `pat` is a prefix of `s` (over character lists). -/
def leadsWith : List Char → List Char → Bool
  | [], _ => true
  | _ :: _, [] => false
  | a :: as, b :: bs => a == b && leadsWith as bs

/-- `pat` occurs as a contiguous run inside `s` (over character lists). -/
def occursIn (pat : List Char) : List Char → Bool
  | [] => pat.isEmpty
  | c :: rest => leadsWith pat (c :: rest) || occursIn pat rest

/-- JavaScript `String.prototype.includes`. -/
def jsIncludesStr (s pat : String) : Bool :=
  occursIn pat.data s.data

/-- Model of the call `v.includes(arg)` where `arg` is a string:
array membership (strict equality) for arrays, substring test for
strings, a TypeError otherwise. -/
def jcallIncludes (tem : String → String → String) (nfm : String → String)
    (v : JVal) (arg : String) : Except String Bool :=
  match v with
  | .vNull => .error (tem "null" "includes")
  | .vUndef => .error (tem "undefined" "includes")
  | .vArr xs =>
    .ok (xs.any fun x =>
      match x with
      | .vStr s => s == arg
      | _ => false)
  | .vStr s => .ok (jsIncludesStr s arg)
  | _ => .error (nfm "includes")

/-- JavaScript `String.prototype.trim` (drop leading and trailing
whitespace), over the character list of the string. -/
def jsTrim (s : String) : String :=
  String.mk (((s.data.dropWhile Char.isWhitespace).reverse.dropWhile
    Char.isWhitespace).reverse)

/-- Model of the call `v.trim().length`: defined on strings, a TypeError
otherwise. -/
def jcallTrimLen (tem : String → String → String) (nfm : String → String)
    (v : JVal) : Except String Nat :=
  match v with
  | .vNull => .error (tem "null" "trim")
  | .vUndef => .error (tem "undefined" "trim")
  | .vStr s => .ok (jsTrim s).length
  | _ => .error (nfm "trim")

mutual

/-- JavaScript string coercion of a value, as used in template literals:
identity on strings, `toString` on numbers and booleans, "null" /
"undefined", comma-joined elements for arrays (with null/undefined
elements rendering empty, per `Array.prototype.join`), and
"[object Object]" for plain objects. -/
def JVal.disp : JVal → String
  | .vNull => "null"
  | .vUndef => "undefined"
  | .vBool b => cond b "true" "false"
  | .vNum n => toString n
  | .vStr s => s
  | .vObj _ => "[object Object]"
  | .vArr xs => dispList xs

/-- Comma join of array elements for `JVal.disp`. -/
def dispList : List JVal → String
  | [] => ""
  | [JVal.vNull] => ""
  | [JVal.vUndef] => ""
  | [v] => JVal.disp v
  | JVal.vNull :: w :: rest => "," ++ dispList (w :: rest)
  | JVal.vUndef :: w :: rest => "," ++ dispList (w :: rest)
  | v :: w :: rest => JVal.disp v ++ "," ++ dispList (w :: rest)

end

/-- `normalizeRepositoryUrl` from the source: empty string for a falsy
value, pass-through for a string, the `url` field of an object when that
field is truthy, empty string otherwise. -/
def normalizeRepositoryUrl (repository : JVal) : JVal :=
  if !repository.truthy then .vStr ""
  else if repository.isStrType then repository
  else if repository.isObjType then
    let u := jgetOpt repository "url"
    if u.truthy then u else .vStr ""
  else .vStr ""

/-- The structured author shape assembled by `auditPlugin`. -/
structure Author where
  name : JVal
  email : JVal
  url : JVal

/-- The author normalization performed in the metadata assembly of
`auditPlugin`: an `object`-typed author keeps its `name`/`email`/`url`
fields (read with optional chaining), anything else becomes
`{name: author, email: null, url: null}`. -/
def normalizeAuthor (a : JVal) : Author :=
  if a.isObjType then
    { name := jgetOpt a "name", email := jgetOpt a "email",
      url := jgetOpt a "url" }
  else
    { name := a, email := JVal.vNull, url := JVal.vNull }

/-- The rejection value of `makeRequest`: every rejection carries a
`status` and a `message`; the `response` field, when present, carries a
status and possibly a raw body (absent fields are `none`, so that the
optional-chained reads `error.response?.status` and
`error.response?.body` yield undefined). -/
structure ReqError where
  status : Nat
  message : String
  responseStatus : Option Nat
  responseBody : Option String

/-- The outcome of one `makeRequest` call: the parsed JSON body on
resolution, a `ReqError` on rejection. -/
abbrev FetchOutcome := Except ReqError JVal

/-- A raw HTTP response as seen by `makeRequest`'s callback: node-style
lowercased headers, status code, raw body text. -/
structure HttpResp where
  headers : List (String × String)
  statusCode : Nat
  body : String

/-- Header lookup `res.headers[k]` (`none` models undefined). -/
def hdr (headers : List (String × String)) (k : String) : Option String :=
  List.lookup k headers

/-- Model of `makeRequest` (response handling): on a GitHub-API URL a
response whose `x-ratelimit-remaining` header is exactly "0" rejects at
once with a 429 rate-limit classification (before the body is read or
parsed); otherwise status >= 400 rejects with `HTTP <status>: <body>`;
otherwise the body is parsed by `parse` (`JSON.parse`), rejecting with a
parse-failure classification when it fails.  `fmt` models
`new Date(reset * 1000).toLocaleString()` applied to the raw
`x-ratelimit-reset` header. -/
def makeRequest (parse : String → Except String JVal)
    (fmt : Option String → String) (isGithub : Bool) (resp : HttpResp) :
    FetchOutcome :=
  if isGithub && (hdr resp.headers "x-ratelimit-remaining" == some "0") then
    .error { status := 429,
             message := "GitHub API rate limit exceeded. Resets at " ++
               fmt (hdr resp.headers "x-ratelimit-reset"),
             responseStatus := some 429, responseBody := none }
  else if resp.statusCode ≥ 400 then
    .error { status := resp.statusCode,
             message := "HTTP " ++ toString resp.statusCode ++ ": " ++
               resp.body,
             responseStatus := some resp.statusCode,
             responseBody := some resp.body }
  else
    match parse resp.body with
    | .ok d => .ok d
    | .error m =>
      .error { status := 500,
               message := "Failed to parse JSON response: " ++ m,
               responseStatus := none, responseBody := none }

/-- The three requests `auditPlugin` may issue, in program order. -/
inductive ReqKind where
  | repoReq
  | topicsReq
  | npmReq
deriving DecidableEq

/-- The outcomes the environment supplies for the three requests of one
`auditPlugin` run. -/
structure Env where
  repoReq : FetchOutcome
  topicsReq : FetchOutcome
  npmReq : FetchOutcome

/-- The `metadata.github` summary assembled by `auditPlugin`. -/
structure GithubMeta where
  name : JVal
  owner : JVal
  fullName : JVal
  stars : JVal
  description : JVal
  topics : JVal
  lastUpdated : JVal
  isPublic : Bool
  url : String

/-- The `metadata.npm` summary assembled by `auditPlugin`. -/
structure NpmMeta where
  name : JVal
  version : JVal
  lastPublished : JVal
  author : Author
  maintainers : JVal
  url : String

/-- The `metadata` object of an `AuditResult` (`none` in a field models
the explicit `null` for a fetch that never succeeded). -/
structure Metadata where
  github : Option GithubMeta
  npm : Option NpmMeta

/-- The value `auditPlugin` resolves with.  `metadata = none` models the
early return `{ passed: false, issues }` that carries no metadata key. -/
structure AuditResult where
  passed : Bool
  issues : List String
  metadata : Option Metadata

/-- One `auditPlugin` run's observable outcome: the resolved result, the
requests issued (in order), and the submission object as it stands when
the function returns (recorded to express that the function does not
mutate its argument). -/
structure AuditOut where
  result : AuditResult
  log : List ReqKind
  subAfter : JVal

/-- The single issue appended by `auditPlugin`'s catch around the GitHub
repository fetch: a status-429 rejection surfaces its message verbatim;
otherwise the response status selects the not-found / forbidden /
generic-access message. -/
def repoFetchIssue (e : ReqError) : String :=
  if e.status = 429 then e.message
  else if e.responseStatus = some 404 then "GitHub repository not found"
  else if e.responseStatus = some 403 then
    "GitHub API access forbidden: " ++ e.message
  else "Error accessing GitHub repository: " ++ e.message

/-- The repository-topics check of `auditPlugin` (the inner try around
the topics fetch): a rejection of the fetch, or a TypeError raised while
reading `.data.names` or calling `.includes`, is caught and reported as
an issue; otherwise the "maiar" tag is required. -/
def topicsCheck (tem : String → String → String) (nfm : String → String)
    (out : FetchOutcome) : List String :=
  match out with
  | .error e => ["Error checking repository topics: " ++ e.message]
  | .ok td =>
    match jget tem td "names" with
    | .error m => ["Error checking repository topics: " ++ m]
    | .ok names =>
      match jcallIncludes tem nfm names "maiar" with
      | .error m => ["Error checking repository topics: " ++ m]
      | .ok b =>
        if b then [] else ["Repository must have the \"maiar\" topic tagged"]

/-- The repository-derived checks of `auditPlugin`, run only when the
repository fetch succeeded with parsed body `rd`: visibility, minimum
description length, and the topics check.  Returns the issues pushed so
far paired with `some m` when an uncaught TypeError (message `m`) was
raised partway (in which case the topics fetch was never issued and
control transfers to the outer catch). -/
def repoChecks (tem : String → String → String) (nfm : String → String)
    (rd : JVal) (topicsOut : FetchOutcome) : List String × Option String :=
  match jget tem rd "private" with
  | .error m => ([], some m)
  | .ok priv =>
    let is1 := if priv.truthy then ["Repository must be public"] else []
    match jget tem rd "description" with
    | .error m => (is1, some m)
    | .ok desc =>
      let needDescIssue : Except String Bool :=
        if !desc.truthy then .ok true
        else
          match jcallTrimLen tem nfm desc with
          | .error m => .error m
          | .ok len => .ok (decide (len < 10))
      match needDescIssue with
      | .error m => (is1, some m)
      | .ok b =>
        let is2 := if b then
          ["Repository must have a clear, descriptive description (minimum 10 characters)"]
          else []
        (is1 ++ is2 ++ topicsCheck tem nfm topicsOut, none)

/-- The npm step of `auditPlugin` (the inner try around the package
fetch): on rejection, the not-found / generic message; on resolution,
`npmData` is assigned, then the visibility check and (when the
repository fetch had succeeded) the repository cross-reference check
run, any TypeError raised by them being caught by the same inner catch
(whose `error.response?.status` read yields undefined for a TypeError,
selecting the generic message).  Returns the final `npmData` and the
issues pushed by this step. -/
def npmStep (tem : String → String → String) (nfm : String → String)
    (sub : JVal) (repoFetched : Bool) (out : FetchOutcome) :
    Option JVal × List String :=
  match out with
  | .error e =>
    (none,
      if e.responseStatus = some 404 then ["npm package not found"]
      else ["Error accessing npm package: " ++ e.message])
  | .ok nd =>
    let step : List String × Option String :=
      match jget tem nd "private" with
      | .error m => ([], some m)
      | .ok priv =>
        let is1 := if priv.truthy then ["npm package must be public"] else []
        if repoFetched then
          match jget tem nd "repository" with
          | .error m => (is1, some m)
          | .ok repoField =>
            let normalized := normalizeRepositoryUrl repoField
            match jget tem sub "owner" with
            | .error m => (is1, some m)
            | .ok ow =>
              match jget tem sub "repo" with
              | .error m => (is1, some m)
              | .ok rp =>
                match jcallIncludes tem nfm normalized
                    (ow.disp ++ "/" ++ rp.disp) with
                | .error m => (is1, some m)
                | .ok b =>
                  (is1 ++ (if b then [] else
                    ["npm package repository URL must match GitHub repository"]),
                   none)
        else (is1, none)
    match step with
    | (iss, none) => (some nd, iss)
    | (iss, some m) =>
      (some nd, iss ++ ["Error accessing npm package: " ++ m])

/-- The required-fields test of `auditPlugin`
(`!submission.repo || !submission.owner || !submission.npm_package_name`),
with JavaScript short-circuit evaluation; a TypeError from a read (the
submission being null/undefined) propagates. -/
def fieldsCheck (tem : String → String → String) (sub : JVal) :
    Except String Bool :=
  match jget tem sub "repo" with
  | .error m => .error m
  | .ok rv =>
    if !rv.truthy then .ok true
    else
      match jget tem sub "owner" with
      | .error m => .error m
      | .ok ov =>
        if !ov.truthy then .ok true
        else
          match jget tem sub "npm_package_name" with
          | .error m => .error m
          | .ok nv => .ok (!nv.truthy)

/-- The `metadata.github` object assembled at the end of `auditPlugin`
from a truthy parsed repository body `d` (reads in source order; the
read `repoData.data.owner.login` can raise a TypeError, which — being
outside the outer try — propagates out of `auditPlugin`). -/
def buildGithub (tem : String → String → String) (sub d : JVal) :
    Except String GithubMeta := do
  let nm ← jget tem d "name"
  let ow ← jget tem d "owner"
  let login ← jget tem ow "login"
  let fn ← jget tem d "full_name"
  let st ← jget tem d "stargazers_count"
  let ds ← jget tem d "description"
  let tp ← jget tem d "topics"
  let up ← jget tem d "updated_at"
  let pv ← jget tem d "private"
  let owv ← jget tem sub "owner"
  let rpv ← jget tem sub "repo"
  pure { name := nm, owner := login, fullName := fn, stars := st,
         description := ds, topics := tp, lastUpdated := up,
         isPublic := !pv.truthy,
         url := "https://github.com/" ++ owv.disp ++ "/" ++ rpv.disp }

/-- The `metadata.npm` object assembled at the end of `auditPlugin` from
a truthy parsed package body `n` (version and last-published read with
optional chaining, author normalized, maintainers defaulting to an
empty array, package name taken from the submission). -/
def buildNpm (tem : String → String → String) (sub n : JVal) :
    Except String NpmMeta := do
  let pn ← jget tem sub "npm_package_name"
  let dt ← jget tem n "dist-tags"
  let ver := jgetOpt dt "latest"
  let tm ← jget tem n "time"
  let lp := jgetOpt tm "modified"
  let au ← jget tem n "author"
  let mt ← jget tem n "maintainers"
  pure { name := pn, version := ver, lastPublished := lp,
         author := normalizeAuthor au,
         maintainers := if mt.truthy then mt else JVal.vArr [],
         url := "https://www.npmjs.com/package/" ++ pn.disp }

/-- The `metadata.github` half of the final assembly
(`repoData?.data ? {...} : null`): populated exactly when the repository
fetch succeeded with a truthy parsed body. -/
def assembleGithub (tem : String → String → String) (sub : JVal)
    (repoData : Option JVal) : Except String (Option GithubMeta) :=
  match repoData with
  | none => .ok none
  | some d =>
    if d.truthy then
      match buildGithub tem sub d with
      | .error m => .error m
      | .ok g => .ok (some g)
    else .ok none

/-- The `metadata.npm` half of the final assembly (`npmData ? {...} :
null`). -/
def assembleNpm (tem : String → String → String) (sub : JVal)
    (npmData : Option JVal) : Except String (Option NpmMeta) :=
  match npmData with
  | none => .ok none
  | some n =>
    if n.truthy then
      match buildNpm tem sub n with
      | .error m => .error m
      | .ok p => .ok (some p)
    else .ok none

/-- The final return object of `auditPlugin` (evaluated left to right:
`github` before `npm`, as in the source object literal). -/
def assembleResult (tem : String → String → String) (sub : JVal)
    (issues : List String) (repoData npmData : Option JVal) :
    Except String AuditResult :=
  match assembleGithub tem sub repoData with
  | .error m => .error m
  | .ok gh =>
    match assembleNpm tem sub npmData with
    | .error m => .error m
    | .ok np =>
      .ok { passed := issues.length == 0, issues := issues,
            metadata := some { github := gh, npm := np } }

/-- Model of `auditPlugin` (the accumulating variant of the source): the
required-fields early return; the repository fetch with its error
classification; the repository-derived checks; the package fetch with
its checks; the outer catch converting any uncaught exception raised so
far into an "Unexpected error during audit" issue; and the final
assembly, which runs outside the outer try (so a TypeError raised there
propagates, modelled by `Except.error`). -/
def auditPlugin (tem : String → String → String) (nfm : String → String)
    (env : Env) (submission : JVal) : Except String AuditOut :=
  match fieldsCheck tem submission with
  | .error m =>
    (assembleResult tem submission
        ["Unexpected error during audit: " ++ m] none none).map
      fun r => { result := r, log := [], subAfter := submission }
  | .ok true =>
    .ok { result := { passed := false,
                      issues := ["Missing required fields in submission"],
                      metadata := none },
          log := [], subAfter := submission }
  | .ok false =>
    match env.repoReq with
    | .error e =>
      let (npmData, npmIss) :=
        npmStep tem nfm submission false env.npmReq
      (assembleResult tem submission (repoFetchIssue e :: npmIss)
          none npmData).map
        fun r => { result := r, log := [ReqKind.repoReq, ReqKind.npmReq],
                   subAfter := submission }
    | .ok rd =>
      match repoChecks tem nfm rd env.topicsReq with
      | (rIss, some m) =>
        (assembleResult tem submission
            (rIss ++ ["Unexpected error during audit: " ++ m])
            (some rd) none).map
          fun r => { result := r, log := [ReqKind.repoReq],
                     subAfter := submission }
      | (rIss, none) =>
        let (npmData, npmIss) :=
          npmStep tem nfm submission true env.npmReq
        (assembleResult tem submission (rIss ++ npmIss)
            (some rd) npmData).map
          fun r => { result := r,
                     log := [ReqKind.repoReq, ReqKind.topicsReq,
                             ReqKind.npmReq],
                     subAfter := submission }

/-- A concrete TypeError-message function for sample runs. -/
def tem0 : String → String → String :=
  fun a b => "TypeError reading " ++ b ++ " of " ++ a

/-- A concrete not-a-function-message function for sample runs. -/
def nfm0 : String → String := fun a => a ++ " is not a function"

/-- A sample well-formed submission object. -/
def sub0 : JVal :=
  .vObj [("repo", .vStr "plugin-x"), ("owner", .vStr "acme"),
         ("npm_package_name", .vStr "pkg")]

/-- A sample generic fetch rejection (network-style, no response). -/
def errBoom : ReqError :=
  { status := 500, message := "boom", responseStatus := none,
    responseBody := none }

/-- A sample environment in which every fetch fails generically. -/
def env0 : Env :=
  { repoReq := .error errBoom, topicsReq := .error errBoom,
    npmReq := .error errBoom }

theorem exceptMap_ok {α β γ : Type} (f : β → γ) (e : Except α β) (c : γ)
    (h : e.map f = .ok c) : ∃ b, e = .ok b ∧ f b = c := by
  cases e with
  | error a => simp [Except.map] at h
  | ok b => exact ⟨b, rfl, by simpa [Except.map] using h⟩

theorem assembleResult_ok (tem : String → String → String) (sub : JVal)
    (iss : List String) (rdo ndo : Option JVal) (r : AuditResult)
    (h : assembleResult tem sub iss rdo ndo = .ok r) :
    r.issues = iss ∧ r.passed = (iss.length == 0) ∧
      ∃ md, r.metadata = some md := by
  unfold assembleResult at h
  split at h
  · exact absurd h (by simp)
  · split at h
    · exact absurd h (by simp)
    · cases h
      exact ⟨rfl, rfl, _, rfl⟩

/-- C1: on every resolution path of `auditPlugin` (the early return on
missing fields, the returns after failed fetches, and the normal return)
the returned result has `passed = true` exactly when its `issues` list
is empty. -/
theorem c1_passed_iff_issues_empty (tem : String → String → String)
    (nfm : String → String) (env : Env) (sub : JVal) (out : AuditOut)
    (h : auditPlugin tem nfm env sub = .ok out) :
    out.result.passed = true ↔ out.result.issues = [] := by
  unfold auditPlugin at h
  split at h
  · obtain ⟨r, _, hf⟩ := exceptMap_ok _ _ _ h
    obtain ⟨hi, hp, _⟩ := assembleResult_ok _ _ _ _ _ _ ‹_›
    subst hf
    simp [hp, hi]
  · cases h
    simp
  · split at h
    · obtain ⟨r, he, hf⟩ := exceptMap_ok _ _ _ h
      obtain ⟨hi, hp, _⟩ := assembleResult_ok _ _ _ _ _ _ he
      subst hf
      simp [hp, hi, List.length_eq_zero]
    · split at h
      · obtain ⟨r, he, hf⟩ := exceptMap_ok _ _ _ h
        obtain ⟨hi, hp, _⟩ := assembleResult_ok _ _ _ _ _ _ he
        subst hf
        simp [hp, hi, List.length_eq_zero]
      · obtain ⟨r, he, hf⟩ := exceptMap_ok _ _ _ h
        obtain ⟨hi, hp, _⟩ := assembleResult_ok _ _ _ _ _ _ he
        subst hf
        simp [hp, hi, List.length_eq_zero]

theorem c1_witness :
    auditPlugin tem0 nfm0 env0 sub0 =
      .ok { result := { passed := false,
                        issues := ["Error accessing GitHub repository: boom",
                                   "Error accessing npm package: boom"],
                        metadata := some { github := none, npm := none } },
            log := [ReqKind.repoReq, ReqKind.npmReq], subAfter := sub0 }
    ∧ (({ result := { passed := false,
                      issues := ["Error accessing GitHub repository: boom",
                                 "Error accessing npm package: boom"],
                      metadata := some { github := none, npm := none } },
          log := [ReqKind.repoReq, ReqKind.npmReq],
          subAfter := sub0 } : AuditOut).result.passed = true ↔
        ({ result := { passed := false,
                       issues := ["Error accessing GitHub repository: boom",
                                  "Error accessing npm package: boom"],
                       metadata := some { github := none, npm := none } },
           log := [ReqKind.repoReq, ReqKind.npmReq],
           subAfter := sub0 } : AuditOut).result.issues = []) :=
  ⟨rfl, c1_passed_iff_issues_empty tem0 nfm0 env0 sub0 _ rfl⟩

theorem except_ok_bind {ε α β : Type} (a : α) (f : α → Except ε β) :
    (Except.ok a >>= f) = f a := rfl

theorem except_error_bind {ε α β : Type} (m : ε) (f : α → Except ε β) :
    ((Except.error m : Except ε α) >>= f) = Except.error m := rfl

theorem jget_ok_of_truthy (tem : String → String → String) (v : JVal)
    (k : String) (h : v.truthy = true) : ∃ w, jget tem v k = .ok w := by
  cases v <;> simp_all [jget, JVal.truthy]

theorem jget_ok_elsewhere (tem : String → String → String) (v : JVal)
    (k k' : String) (w : JVal) (h : jget tem v k = .ok w) :
    ∃ u, jget tem v k' = .ok u := by
  cases v <;> simp_all [jget]

/-- C10: `auditPlugin` never mutates its submission argument — on every
resolution path the submission object at return time is the one that was
passed in. -/
theorem c10_submission_unchanged (tem : String → String → String)
    (nfm : String → String) (env : Env) (sub : JVal) (out : AuditOut)
    (h : auditPlugin tem nfm env sub = .ok out) : out.subAfter = sub := by
  unfold auditPlugin at h
  split at h
  · obtain ⟨r, _, hf⟩ := exceptMap_ok _ _ _ h
    subst hf
    rfl
  · cases h
    rfl
  · split at h
    · obtain ⟨r, _, hf⟩ := exceptMap_ok _ _ _ h
      subst hf
      rfl
    · split at h
      · obtain ⟨r, _, hf⟩ := exceptMap_ok _ _ _ h
        subst hf
        rfl
      · obtain ⟨r, _, hf⟩ := exceptMap_ok _ _ _ h
        subst hf
        rfl

theorem c10_witness :
    auditPlugin tem0 nfm0 env0 sub0 =
      .ok { result := { passed := false,
                        issues := ["Error accessing GitHub repository: boom",
                                   "Error accessing npm package: boom"],
                        metadata := some { github := none, npm := none } },
            log := [ReqKind.repoReq, ReqKind.npmReq], subAfter := sub0 }
    ∧ ({ result := { passed := false,
                     issues := ["Error accessing GitHub repository: boom",
                                "Error accessing npm package: boom"],
                     metadata := some { github := none, npm := none } },
         log := [ReqKind.repoReq, ReqKind.npmReq],
         subAfter := sub0 } : AuditOut).subAfter = sub0 :=
  ⟨rfl, c10_submission_unchanged tem0 nfm0 env0 sub0 _ rfl⟩

/-- C5: a submission readable without a TypeError in which `repo`,
`owner` or `npm_package_name` is falsy (missing or empty) makes
`auditPlugin` return immediately: `passed = false`, the single issue
"Missing required fields in submission", no metadata key, and no network
request issued (the outcome is the same for every environment). -/
theorem c5_missing_fields (tem : String → String → String)
    (nfm : String → String) (env : Env) (sub rv ov nv : JVal)
    (hr : jget tem sub "repo" = .ok rv)
    (ho : jget tem sub "owner" = .ok ov)
    (hn : jget tem sub "npm_package_name" = .ok nv)
    (hmiss : rv.truthy = false ∨ ov.truthy = false ∨ nv.truthy = false) :
    auditPlugin tem nfm env sub =
      .ok { result := { passed := false,
                        issues := ["Missing required fields in submission"],
                        metadata := none },
            log := [], subAfter := sub } := by
  have hfc : fieldsCheck tem sub = .ok true := by
    simp only [fieldsCheck, hr, ho, hn]
    rcases hmiss with hm | hm | hm
    · simp [hm]
    · by_cases hrv : rv.truthy = true <;> simp [hrv, hm]
    · by_cases hrv : rv.truthy = true <;>
        by_cases hov : ov.truthy = true <;> simp [hrv, hov, hm]
  simp only [auditPlugin, hfc]

theorem c5_witness :
    jget tem0 (.vObj [("repo", .vStr "r"), ("owner", .vStr "o")]) "repo" =
      .ok (.vStr "r")
    ∧ jget tem0 (.vObj [("repo", .vStr "r"), ("owner", .vStr "o")]) "owner" =
      .ok (.vStr "o")
    ∧ jget tem0 (.vObj [("repo", .vStr "r"), ("owner", .vStr "o")])
        "npm_package_name" = .ok .vUndef
    ∧ JVal.vUndef.truthy = false
    ∧ auditPlugin tem0 nfm0 env0
        (.vObj [("repo", .vStr "r"), ("owner", .vStr "o")]) =
      .ok { result := { passed := false,
                        issues := ["Missing required fields in submission"],
                        metadata := none },
            log := [],
            subAfter := .vObj [("repo", .vStr "r"), ("owner", .vStr "o")] } :=
  ⟨rfl, rfl, rfl, rfl,
    c5_missing_fields tem0 nfm0 env0 _ _ _ _ rfl rfl rfl
      (Or.inr (Or.inr rfl))⟩

/-- A concrete stand-in for `JSON.parse` in sample runs. -/
def parse0 : String → Except String JVal := fun s => .error s

/-- A concrete stand-in for the locale time formatting in sample runs. -/
def fmt0 : Option String → String := fun o => o.getD "unknown"

theorem fieldsCheck_present (tem : String → String → String)
    (sub rv ov nv : JVal)
    (hr : jget tem sub "repo" = .ok rv) (hrt : rv.truthy = true)
    (ho : jget tem sub "owner" = .ok ov) (hot : ov.truthy = true)
    (hn : jget tem sub "npm_package_name" = .ok nv)
    (hnt : nv.truthy = true) :
    fieldsCheck tem sub = .ok false := by
  simp [fieldsCheck, hr, ho, hn, hrt, hot, hnt]

theorem buildNpm_ok (tem : String → String → String) (sub n pn : JVal)
    (hnt : n.truthy = true)
    (hpn : jget tem sub "npm_package_name" = .ok pn) :
    ∃ p, buildNpm tem sub n = .ok p := by
  obtain ⟨dt, hdt⟩ := jget_ok_of_truthy tem n "dist-tags" hnt
  obtain ⟨tm, htm⟩ := jget_ok_of_truthy tem n "time" hnt
  obtain ⟨au, hau⟩ := jget_ok_of_truthy tem n "author" hnt
  obtain ⟨mt, hmt⟩ := jget_ok_of_truthy tem n "maintainers" hnt
  refine ⟨{ name := pn, version := jgetOpt dt "latest",
            lastPublished := jgetOpt tm "modified",
            author := normalizeAuthor au,
            maintainers := if mt.truthy then mt else JVal.vArr [],
            url := "https://www.npmjs.com/package/" ++ pn.disp }, ?_⟩
  simp [buildNpm, hpn, hdt, htm, hau, hmt, except_ok_bind]

theorem jget_error_not_truthy (tem : String → String → String)
    (v : JVal) (k : String) (m : String)
    (h : jget tem v k = .error m) : v.truthy = false := by
  cases v <;> simp_all [jget, JVal.truthy]

theorem auditPlugin_repoError (tem : String → String → String)
    (nfm : String → String) (e : ReqError)
    (topicsOut npmOut : FetchOutcome) (sub rv ov nv : JVal)
    (hr : jget tem sub "repo" = .ok rv) (hrt : rv.truthy = true)
    (ho : jget tem sub "owner" = .ok ov) (hot : ov.truthy = true)
    (hn : jget tem sub "npm_package_name" = .ok nv)
    (hnt : nv.truthy = true) :
    ∃ np, auditPlugin tem nfm
        { repoReq := .error e, topicsReq := topicsOut, npmReq := npmOut }
        sub =
      .ok { result := { passed := false,
                        issues := repoFetchIssue e ::
                          (npmStep tem nfm sub false npmOut).2,
                        metadata := some { github := none, npm := np } },
            log := [ReqKind.repoReq, ReqKind.npmReq], subAfter := sub }
      ∧ (np.isSome = true ↔ ∃ d, npmOut = .ok d ∧ d.truthy = true) := by
  have hfc := fieldsCheck_present tem sub rv ov nv hr hrt ho hot hn hnt
  cases npmOut with
  | error e2 =>
    refine ⟨none, ?_, by simp⟩
    simp [auditPlugin, hfc, npmStep, assembleResult, assembleGithub,
      assembleNpm, Except.map]
  | ok nd =>
    cases hpriv : jget tem nd "private" with
    | error m =>
      have hndf := jget_error_not_truthy tem nd "private" m hpriv
      refine ⟨none, ?_, by simp [hndf]⟩
      simp [auditPlugin, hfc, npmStep, hpriv, assembleResult,
        assembleGithub, assembleNpm, hndf, Except.map]
    | ok priv =>
      cases hndt : nd.truthy with
      | false =>
        refine ⟨none, ?_, by simp [hndt]⟩
        simp [auditPlugin, hfc, npmStep, hpriv, assembleResult,
          assembleGithub, assembleNpm, hndt, Except.map]
      | true =>
        obtain ⟨p, hp⟩ := buildNpm_ok tem sub nd nv hndt hn
        refine ⟨some p, ?_, by simp [hndt]⟩
        simp [auditPlugin, hfc, npmStep, hpriv, assembleResult,
          assembleGithub, assembleNpm, hndt, hp, Except.map]

/-- C2: with all three required fields present, a failed repository
fetch does not abort the audit: the npm request is still issued (the
request log is exactly repo-then-npm), the result carries a metadata
object whose `github` half is absent, and when the npm fetch succeeded
with a truthy body, `metadata.npm` is populated. -/
theorem c2_repo_failure_not_fatal (tem : String → String → String)
    (nfm : String → String) (e : ReqError) (topicsOut : FetchOutcome)
    (sub rv ov nv d : JVal)
    (hr : jget tem sub "repo" = .ok rv) (hrt : rv.truthy = true)
    (ho : jget tem sub "owner" = .ok ov) (hot : ov.truthy = true)
    (hn : jget tem sub "npm_package_name" = .ok nv)
    (hnt : nv.truthy = true) (hdt : d.truthy = true) :
    ∃ out p,
      auditPlugin tem nfm
        { repoReq := .error e, topicsReq := topicsOut, npmReq := .ok d }
        sub = .ok out
      ∧ out.log = [ReqKind.repoReq, ReqKind.npmReq]
      ∧ out.result.metadata = some { github := none, npm := some p } := by
  obtain ⟨np, heq, hiff⟩ := auditPlugin_repoError tem nfm e topicsOut
    (.ok d) sub rv ov nv hr hrt ho hot hn hnt
  obtain ⟨p, hp⟩ :=
    Option.isSome_iff_exists.mp (hiff.mpr ⟨d, rfl, hdt⟩)
  subst hp
  exact ⟨_, p, heq, rfl, rfl⟩

theorem c2_witness :
    jget tem0 sub0 "repo" = .ok (.vStr "plugin-x")
    ∧ (JVal.vStr "plugin-x").truthy = true
    ∧ jget tem0 sub0 "owner" = .ok (.vStr "acme")
    ∧ (JVal.vStr "acme").truthy = true
    ∧ jget tem0 sub0 "npm_package_name" = .ok (.vStr "pkg")
    ∧ (JVal.vStr "pkg").truthy = true
    ∧ (JVal.vObj []).truthy = true
    ∧ ∃ out p,
        auditPlugin tem0 nfm0
          { repoReq := .error errBoom, topicsReq := .error errBoom,
            npmReq := .ok (.vObj []) } sub0 = .ok out
        ∧ out.log = [ReqKind.repoReq, ReqKind.npmReq]
        ∧ out.result.metadata = some { github := none, npm := some p } :=
  ⟨rfl, rfl, rfl, rfl, rfl, rfl, rfl,
    c2_repo_failure_not_fatal tem0 nfm0 errBoom (.error errBoom) sub0
      _ _ _ (.vObj []) rfl rfl rfl rfl rfl rfl rfl⟩

/-- C3: a GitHub-API response whose `x-ratelimit-remaining` header is
exactly "0" makes `makeRequest` reject at once with the 429 rate-limit
classification carrying the formatted reset time — independently of the
response status, body and JSON parser (so before any body parsing) —
and `auditPlugin` surfaces that message verbatim as the issue appended
by the repository step (never one of the generic access messages). -/
theorem c3_rate_limit_short_circuit (parse : String → Except String JVal)
    (fmt : Option String → String) (resp : HttpResp)
    (tem : String → String → String) (nfm : String → String)
    (topicsOut npmOut : FetchOutcome) (sub rv ov nv : JVal)
    (hrl : hdr resp.headers "x-ratelimit-remaining" = some "0")
    (hr : jget tem sub "repo" = .ok rv) (hrt : rv.truthy = true)
    (ho : jget tem sub "owner" = .ok ov) (hot : ov.truthy = true)
    (hn : jget tem sub "npm_package_name" = .ok nv)
    (hnt : nv.truthy = true) :
    makeRequest parse fmt true resp =
      .error { status := 429,
               message := "GitHub API rate limit exceeded. Resets at " ++
                 fmt (hdr resp.headers "x-ratelimit-reset"),
               responseStatus := some 429, responseBody := none }
    ∧ repoFetchIssue
        { status := 429,
          message := "GitHub API rate limit exceeded. Resets at " ++
            fmt (hdr resp.headers "x-ratelimit-reset"),
          responseStatus := some 429, responseBody := none } =
      "GitHub API rate limit exceeded. Resets at " ++
        fmt (hdr resp.headers "x-ratelimit-reset")
    ∧ ∃ out rest,
        auditPlugin tem nfm
          { repoReq := .error
              { status := 429,
                message := "GitHub API rate limit exceeded. Resets at " ++
                  fmt (hdr resp.headers "x-ratelimit-reset"),
                responseStatus := some 429, responseBody := none },
            topicsReq := topicsOut, npmReq := npmOut } sub = .ok out
        ∧ out.result.issues =
            ("GitHub API rate limit exceeded. Resets at " ++
              fmt (hdr resp.headers "x-ratelimit-reset")) :: rest := by
  refine ⟨by simp [makeRequest, hrl], by simp [repoFetchIssue], ?_⟩
  obtain ⟨np, heq, _⟩ := auditPlugin_repoError tem nfm _ topicsOut npmOut
    sub rv ov nv hr hrt ho hot hn hnt
  refine ⟨_, (npmStep tem nfm sub false npmOut).2, heq, ?_⟩
  simp [repoFetchIssue]

theorem c3_witness :
    hdr [("x-ratelimit-remaining", "0"), ("x-ratelimit-reset", "1700000000")]
      "x-ratelimit-remaining" = some "0"
    ∧ (makeRequest parse0 fmt0 true
        { headers := [("x-ratelimit-remaining", "0"),
                      ("x-ratelimit-reset", "1700000000")],
          statusCode := 200, body := "{}" } =
      .error { status := 429,
               message := "GitHub API rate limit exceeded. Resets at " ++
                 fmt0 (hdr [("x-ratelimit-remaining", "0"),
                            ("x-ratelimit-reset", "1700000000")]
                   "x-ratelimit-reset"),
               responseStatus := some 429, responseBody := none }
      ∧ repoFetchIssue
          { status := 429,
            message := "GitHub API rate limit exceeded. Resets at " ++
              fmt0 (hdr [("x-ratelimit-remaining", "0"),
                         ("x-ratelimit-reset", "1700000000")]
                "x-ratelimit-reset"),
            responseStatus := some 429, responseBody := none } =
        "GitHub API rate limit exceeded. Resets at " ++
          fmt0 (hdr [("x-ratelimit-remaining", "0"),
                     ("x-ratelimit-reset", "1700000000")]
            "x-ratelimit-reset")
      ∧ ∃ out rest,
          auditPlugin tem0 nfm0
            { repoReq := .error
                { status := 429,
                  message := "GitHub API rate limit exceeded. Resets at " ++
                    fmt0 (hdr [("x-ratelimit-remaining", "0"),
                               ("x-ratelimit-reset", "1700000000")]
                      "x-ratelimit-reset"),
                  responseStatus := some 429, responseBody := none },
              topicsReq := .error errBoom, npmReq := .error errBoom }
            sub0 = .ok out
          ∧ out.result.issues =
              ("GitHub API rate limit exceeded. Resets at " ++
                fmt0 (hdr [("x-ratelimit-remaining", "0"),
                           ("x-ratelimit-reset", "1700000000")]
                  "x-ratelimit-reset")) :: rest) :=
  ⟨rfl,
    c3_rate_limit_short_circuit parse0 fmt0 _ tem0 nfm0 (.error errBoom)
      (.error errBoom) sub0 _ _ _ rfl rfl rfl rfl rfl rfl rfl⟩

/-- C4 counterexample: a plain HTTP 429 response carrying no
`x-ratelimit-remaining: "0"` header is a repository-fetch failure that
is not the rate-limit classification of the adapter, yet the issue that
`auditPlugin` appends for it is the raw rejection message
"HTTP 429: slow down" — not the claimed
"Error accessing GitHub repository: <message>" (nor the not-found or
forbidden messages). -/
theorem c4_counterexample :
    hdr ([] : List (String × String)) "x-ratelimit-remaining" ≠ some "0"
    ∧ makeRequest parse0 fmt0 true
        { headers := [], statusCode := 429, body := "slow down" } =
      .error { status := 429, message := "HTTP 429: slow down",
               responseStatus := some 429,
               responseBody := some "slow down" }
    ∧ auditPlugin tem0 nfm0
        { repoReq := .error
            { status := 429, message := "HTTP 429: slow down",
              responseStatus := some 429,
              responseBody := some "slow down" },
          topicsReq := .error errBoom, npmReq := .error errBoom } sub0 =
      .ok { result := { passed := false,
                        issues := ["HTTP 429: slow down",
                                   "Error accessing npm package: boom"],
                        metadata := some { github := none, npm := none } },
            log := [ReqKind.repoReq, ReqKind.npmReq], subAfter := sub0 }
    ∧ "Error accessing GitHub repository: HTTP 429: slow down" ∉
        (["HTTP 429: slow down", "Error accessing npm package: boom"] :
          List String)
    ∧ "GitHub repository not found" ∉
        (["HTTP 429: slow down", "Error accessing npm package: boom"] :
          List String)
    ∧ "GitHub API access forbidden: HTTP 429: slow down" ∉
        (["HTTP 429: slow down", "Error accessing npm package: boom"] :
          List String) := by
  exact ⟨by decide, rfl, rfl, by decide, by decide, by decide⟩

/-- C4 (amended): for every repository-fetch failure whose `status`
field is not 429 (status-429 rejections — the rate-limit classification
and plain HTTP 429 responses — surface their message verbatim instead),
`auditPlugin` appends exactly one issue for the repository step,
selected by the attached response status: 404 gives "GitHub repository
not found", 403 gives "GitHub API access forbidden: <message>", and any
other failure gives "Error accessing GitHub repository: <message>". -/
theorem c4_repo_error_classification (tem : String → String → String)
    (nfm : String → String) (e : ReqError)
    (topicsOut npmOut : FetchOutcome) (sub rv ov nv : JVal)
    (hr : jget tem sub "repo" = .ok rv) (hrt : rv.truthy = true)
    (ho : jget tem sub "owner" = .ok ov) (hot : ov.truthy = true)
    (hn : jget tem sub "npm_package_name" = .ok nv)
    (hnt : nv.truthy = true) (h429 : e.status ≠ 429) :
    ∃ out rest,
      auditPlugin tem nfm
        { repoReq := .error e, topicsReq := topicsOut, npmReq := npmOut }
        sub = .ok out
      ∧ out.result.issues =
          (if e.responseStatus = some 404 then "GitHub repository not found"
           else if e.responseStatus = some 403 then
             "GitHub API access forbidden: " ++ e.message
           else "Error accessing GitHub repository: " ++ e.message) ::
            rest := by
  obtain ⟨np, heq, _⟩ := auditPlugin_repoError tem nfm e topicsOut npmOut
    sub rv ov nv hr hrt ho hot hn hnt
  refine ⟨_, (npmStep tem nfm sub false npmOut).2, heq, ?_⟩
  simp [repoFetchIssue, h429]

theorem c4_witness :
    jget tem0 sub0 "repo" = .ok (.vStr "plugin-x")
    ∧ jget tem0 sub0 "owner" = .ok (.vStr "acme")
    ∧ jget tem0 sub0 "npm_package_name" = .ok (.vStr "pkg")
    ∧ errBoom.status ≠ 429
    ∧ ∃ out rest,
        auditPlugin tem0 nfm0
          { repoReq := .error errBoom, topicsReq := .error errBoom,
            npmReq := .error errBoom } sub0 = .ok out
        ∧ out.result.issues =
            (if errBoom.responseStatus = some 404 then
              "GitHub repository not found"
             else if errBoom.responseStatus = some 403 then
               "GitHub API access forbidden: " ++ errBoom.message
             else "Error accessing GitHub repository: " ++ errBoom.message)
              :: rest :=
  ⟨rfl, rfl, rfl, by decide,
    c4_repo_error_classification tem0 nfm0 errBoom (.error errBoom)
      (.error errBoom) sub0 _ _ _ rfl rfl rfl rfl rfl rfl (by decide)⟩

theorem jget_ok_of_ne (tem : String → String → String) (v : JVal)
    (k : String) (h1 : v ≠ JVal.vNull) (h2 : v ≠ JVal.vUndef) :
    ∃ w, jget tem v k = .ok w := by
  cases v <;> simp_all [jget]

theorem fieldsCheck_false_elim (tem : String → String → String)
    (sub : JVal) (h : fieldsCheck tem sub = .ok false) :
    ∃ rv ov nv, jget tem sub "repo" = .ok rv ∧ rv.truthy = true ∧
      jget tem sub "owner" = .ok ov ∧ ov.truthy = true ∧
      jget tem sub "npm_package_name" = .ok nv ∧ nv.truthy = true := by
  unfold fieldsCheck at h
  cases h1 : jget tem sub "repo" with
  | error m => rw [h1] at h; cases h
  | ok rv =>
    rw [h1] at h
    by_cases hrt : rv.truthy = true
    · simp only [hrt, Bool.not_true, Bool.false_eq_true, if_false] at h
      cases h2 : jget tem sub "owner" with
      | error m => rw [h2] at h; cases h
      | ok ov =>
        rw [h2] at h
        by_cases hot : ov.truthy = true
        · simp only [hot, Bool.not_true, Bool.false_eq_true, if_false] at h
          cases h3 : jget tem sub "npm_package_name" with
          | error m => rw [h3] at h; cases h
          | ok nv =>
            rw [h3] at h
            refine ⟨rv, ov, nv, rfl, hrt, rfl, hot, rfl, ?_⟩
            have := Except.ok.inj h
            simpa using this
        · simp [Bool.eq_false_iff.mpr hot] at h
    · simp [Bool.eq_false_iff.mpr hrt] at h

theorem buildGithub_ok (tem : String → String → String) (sub d : JVal)
    (hd : d.truthy = true)
    (howner : ∀ ow, jget tem d "owner" = .ok ow →
      ow ≠ JVal.vNull ∧ ow ≠ JVal.vUndef)
    (ovv rvv : JVal) (hso : jget tem sub "owner" = .ok ovv)
    (hsr : jget tem sub "repo" = .ok rvv) :
    ∃ g, buildGithub tem sub d = .ok g := by
  obtain ⟨nm, hnm⟩ := jget_ok_of_truthy tem d "name" hd
  obtain ⟨ow, how⟩ := jget_ok_of_truthy tem d "owner" hd
  obtain ⟨hw1, hw2⟩ := howner ow how
  obtain ⟨lg, hlg⟩ := jget_ok_of_ne tem ow "login" hw1 hw2
  obtain ⟨fn, hfn⟩ := jget_ok_of_truthy tem d "full_name" hd
  obtain ⟨st, hst⟩ := jget_ok_of_truthy tem d "stargazers_count" hd
  obtain ⟨ds, hds⟩ := jget_ok_of_truthy tem d "description" hd
  obtain ⟨tp, htp⟩ := jget_ok_of_truthy tem d "topics" hd
  obtain ⟨up, hup⟩ := jget_ok_of_truthy tem d "updated_at" hd
  obtain ⟨pv, hpv⟩ := jget_ok_of_truthy tem d "private" hd
  refine ⟨{ name := nm, owner := lg, fullName := fn, stars := st,
            description := ds, topics := tp, lastUpdated := up,
            isPublic := !pv.truthy,
            url := "https://github.com/" ++ ovv.disp ++ "/" ++ rvv.disp },
    ?_⟩
  simp [buildGithub, hnm, how, hlg, hfn, hst, hds, htp, hup, hpv, hso,
    hsr, except_ok_bind]

theorem assembleNpm_after_npmStep (tem : String → String → String)
    (nfm : String → String) (sub nv : JVal) (rf : Bool)
    (out : FetchOutcome)
    (hn : jget tem sub "npm_package_name" = .ok nv) :
    ∃ np, assembleNpm tem sub (npmStep tem nfm sub rf out).1 = .ok np := by
  cases out with
  | error e => exact ⟨none, by simp [npmStep, assembleNpm]⟩
  | ok nd =>
    have hfst : (npmStep tem nfm sub rf (.ok nd)).1 = some nd := by
      simp only [npmStep]
      split <;> rfl
    rw [hfst]
    by_cases hndt : nd.truthy = true
    · obtain ⟨p, hp⟩ := buildNpm_ok tem sub nd nv hndt hn
      exact ⟨some p, by simp [assembleNpm, hndt, hp]⟩
    · exact ⟨none, by simp [assembleNpm, Bool.eq_false_iff.mpr hndt]⟩

/-- C7 counterexample: an environment in which the repository fetch
succeeds with the truthy payload `{}` (an object with no `owner` field)
makes the metadata assembly read `repoData.data.owner.login` on
undefined, outside the outer try/catch, so `auditPlugin` rejects a
TypeError instead of resolving to an `AuditResult`. -/
theorem c7_counterexample :
    auditPlugin tem0 nfm0
      { repoReq := .ok (.vObj []), topicsReq := .error errBoom,
        npmReq := .error errBoom } sub0 =
      .error (tem0 "undefined" "login")
    ∧ ¬ ∃ out, auditPlugin tem0 nfm0
        { repoReq := .ok (.vObj []), topicsReq := .error errBoom,
          npmReq := .error errBoom } sub0 = .ok out := by
  refine ⟨rfl, ?_⟩
  rintro ⟨out, h⟩
  have h2 : (Except.error (tem0 "undefined" "login") :
      Except String AuditOut) = .ok out := h
  simp at h2

/-- C7 (amended): every exception raised inside the audit body is caught
and converted into the issue "Unexpected error during audit: <message>"
(a null submission, for instance, resolves with exactly that single
issue); `auditPlugin` itself resolves to an `AuditResult` for every
submission and fetch outcome, provided the final metadata assembly
cannot throw — that is, provided any truthy payload of a successful
repository fetch has an `owner` field that is not null/undefined (the
read `owner.login` sits outside the try/catch and otherwise throws). -/
theorem c7_no_throw_with_safe_owner (tem : String → String → String)
    (nfm : String → String) (env : Env) (sub : JVal)
    (hsafe : ∀ d ow, env.repoReq = .ok d → d.truthy = true →
      jget tem d "owner" = .ok ow →
      ow ≠ JVal.vNull ∧ ow ≠ JVal.vUndef) :
    (∃ out, auditPlugin tem nfm env sub = .ok out)
    ∧ auditPlugin tem nfm env .vNull =
      .ok { result := { passed := false,
                        issues := ["Unexpected error during audit: " ++
                          tem "null" "repo"],
                        metadata := some { github := none, npm := none } },
            log := [], subAfter := .vNull } := by
  obtain ⟨a, b, c⟩ := env
  refine ⟨?_, rfl⟩
  cases hfc : fieldsCheck tem sub with
  | error m =>
    exact ⟨_, by
      simp only [auditPlugin, hfc, assembleResult, assembleGithub,
        assembleNpm, Except.map]
      rfl⟩
  | ok early =>
    cases early with
    | true =>
      exact ⟨_, by
        simp only [auditPlugin, hfc]
        rfl⟩
    | false =>
      obtain ⟨rv, ov, nv, hr, hrt, ho, hot, hn, hnt⟩ :=
        fieldsCheck_false_elim tem sub hfc
      cases a with
      | error e =>
        obtain ⟨np, heq, _⟩ := auditPlugin_repoError tem nfm e b c sub
          rv ov nv hr hrt ho hot hn hnt
        exact ⟨_, heq⟩
      | ok rd =>
        rcases hrc : repoChecks tem nfm rd b with ⟨rIss, thrownQ⟩
        cases thrownQ with
        | some m =>
          by_cases hrdt : rd.truthy = true
          · obtain ⟨g, hg⟩ := buildGithub_ok tem sub rd hrdt
              (fun ow how => hsafe rd ow rfl hrdt how) ov rv ho hr
            exact ⟨_, by
              simp only [auditPlugin, hfc, hrc, assembleResult,
                assembleGithub, assembleNpm, hrdt, hg, Except.map,
                if_true]
              rfl⟩
          · exact ⟨_, by
              simp only [auditPlugin, hfc, hrc, assembleResult,
                assembleGithub, assembleNpm, Bool.eq_false_iff.mpr hrdt,
                Except.map, if_false]
              rfl⟩
        | none =>
          obtain ⟨np, hnp⟩ := assembleNpm_after_npmStep tem nfm sub nv
            true c hn
          by_cases hrdt : rd.truthy = true
          · obtain ⟨g, hg⟩ := buildGithub_ok tem sub rd hrdt
              (fun ow how => hsafe rd ow rfl hrdt how) ov rv ho hr
            exact ⟨_, by
              simp only [auditPlugin, hfc, hrc, assembleResult,
                assembleGithub, hrdt, hg, hnp, Except.map, if_true]
              rfl⟩
          · exact ⟨_, by
              simp only [auditPlugin, hfc, hrc, assembleResult,
                assembleGithub, Bool.eq_false_iff.mpr hrdt, hnp,
                Except.map, if_false]
              rfl⟩

theorem c7_witness :
    (∀ d ow, env0.repoReq = Except.ok d → d.truthy = true →
      jget tem0 d "owner" = .ok ow →
      ow ≠ JVal.vNull ∧ ow ≠ JVal.vUndef)
    ∧ (∃ out, auditPlugin tem0 nfm0 env0 sub0 = .ok out)
    ∧ auditPlugin tem0 nfm0 env0 .vNull =
      .ok { result := { passed := false,
                        issues := ["Unexpected error during audit: " ++
                          tem0 "null" "repo"],
                        metadata := some { github := none, npm := none } },
            log := [], subAfter := .vNull } := by
  have hs : ∀ d ow, env0.repoReq = Except.ok d → d.truthy = true →
      jget tem0 d "owner" = .ok ow →
      ow ≠ JVal.vNull ∧ ow ≠ JVal.vUndef := by
    intro d ow hd htr hj
    exact absurd hd (by simp [env0])
  exact ⟨hs, (c7_no_throw_with_safe_owner tem0 nfm0 env0 sub0 hs).1,
    (c7_no_throw_with_safe_owner tem0 nfm0 env0 sub0 hs).2⟩

theorem buildNpm_author (tem : String → String → String) (sub nd : JVal)
    (nm : NpmMeta) (h : buildNpm tem sub nd = .ok nm) :
    ∃ a, nm.author = normalizeAuthor a := by
  unfold buildNpm at h
  cases hpn : jget tem sub "npm_package_name" with
  | error m => rw [hpn, except_error_bind] at h; cases h
  | ok pn =>
    rw [hpn, except_ok_bind] at h
    cases hdt : jget tem nd "dist-tags" with
    | error m => rw [hdt, except_error_bind] at h; cases h
    | ok dt =>
      rw [hdt, except_ok_bind] at h
      cases htm : jget tem nd "time" with
      | error m => rw [htm, except_error_bind] at h; cases h
      | ok tm =>
        rw [htm, except_ok_bind] at h
        cases hau : jget tem nd "author" with
        | error m => rw [hau, except_error_bind] at h; cases h
        | ok au =>
          rw [hau, except_ok_bind] at h
          cases hmt : jget tem nd "maintainers" with
          | error m => rw [hmt, except_error_bind] at h; cases h
          | ok mt =>
            rw [hmt, except_ok_bind] at h
            refine ⟨au, ?_⟩
            have := Except.ok.inj h
            rw [← this]

/-- C8: author normalization round-trips: an author already in the
structured form `{name, email, url}` is mapped to the same structure
unchanged, and a bare string author is mapped to
`{name: <string>, email: null, url: null}`; moreover the `author` field
of any assembled `metadata.npm` lies in the image of `normalizeAuthor`
(it is always in the structured form). -/
theorem c8_author_normalization (n e u : JVal) (s : String)
    (tem : String → String → String) (sub : JVal) (iss : List String)
    (rdo ndo : Option JVal) (r : AuditResult) (md : Metadata)
    (nm : NpmMeta)
    (hres : assembleResult tem sub iss rdo ndo = .ok r)
    (hmd : r.metadata = some md) (hnm : md.npm = some nm) :
    normalizeAuthor (.vObj [("name", n), ("email", e), ("url", u)]) =
      { name := n, email := e, url := u }
    ∧ normalizeAuthor (.vStr s) =
      { name := .vStr s, email := JVal.vNull, url := JVal.vNull }
    ∧ ∃ a, nm.author = normalizeAuthor a := by
  refine ⟨rfl, rfl, ?_⟩
  unfold assembleResult at hres
  cases hgh : assembleGithub tem sub rdo with
  | error m => rw [hgh] at hres; cases hres
  | ok gh =>
    rw [hgh] at hres
    cases hnpE : assembleNpm tem sub ndo with
    | error m => rw [hnpE] at hres; cases hres
    | ok np =>
      rw [hnpE] at hres
      cases hres
      simp only at hmd
      cases hmd
      simp only at hnm
      subst hnm
      cases ndo with
      | none =>
        simp only [assembleNpm] at hnpE
        cases Except.ok.inj hnpE
      | some nd =>
        simp only [assembleNpm] at hnpE
        by_cases hndt : nd.truthy = true
        · rw [if_pos hndt] at hnpE
          cases hb : buildNpm tem sub nd with
          | error m => rw [hb] at hnpE; cases hnpE
          | ok p =>
            rw [hb] at hnpE
            have hp := Except.ok.inj hnpE
            cases hp
            exact buildNpm_author tem sub nd _ hb
        · rw [if_neg hndt] at hnpE
          cases Except.ok.inj hnpE

theorem c8_witness :
    assembleResult tem0 sub0 [] none
        (some (.vObj [("author", .vStr "Jane Doe")])) =
      .ok { passed := true, issues := [],
            metadata := some
              { github := none,
                npm := some
                  { name := .vStr "pkg", version := .vUndef,
                    lastPublished := .vUndef,
                    author := { name := .vStr "Jane Doe",
                                email := .vNull, url := .vNull },
                    maintainers := .vArr [],
                    url := "https://www.npmjs.com/package/" ++
                      (JVal.vStr "pkg").disp } } }
    ∧ normalizeAuthor
        (.vObj [("name", .vStr "Ann"), ("email", .vStr "ann-at-x"),
                ("url", .vStr "https://ann")]) =
      { name := .vStr "Ann", email := .vStr "ann-at-x",
        url := .vStr "https://ann" }
    ∧ normalizeAuthor (.vStr "Jane Doe") =
      { name := .vStr "Jane Doe", email := JVal.vNull, url := JVal.vNull }
    ∧ ∃ a,
        ({ name := .vStr "pkg", version := .vUndef,
           lastPublished := .vUndef,
           author := { name := .vStr "Jane Doe", email := .vNull,
                       url := .vNull },
           maintainers := .vArr [],
           url := "https://www.npmjs.com/package/" ++
             (JVal.vStr "pkg").disp } : NpmMeta).author =
          normalizeAuthor a :=
  ⟨rfl,
    (c8_author_normalization (.vStr "Ann") (.vStr "ann-at-x")
      (.vStr "https://ann") "Jane Doe" tem0 sub0 [] none
      (some (.vObj [("author", .vStr "Jane Doe")])) _ _ _ rfl rfl rfl).1,
    (c8_author_normalization (.vStr "Ann") (.vStr "ann-at-x")
      (.vStr "https://ann") "Jane Doe" tem0 sub0 [] none
      (some (.vObj [("author", .vStr "Jane Doe")])) _ _ _ rfl rfl rfl).2.1,
    (c8_author_normalization (.vStr "Ann") (.vStr "ann-at-x")
      (.vStr "https://ann") "Jane Doe" tem0 sub0 [] none
      (some (.vObj [("author", .vStr "Jane Doe")]))
      { passed := true, issues := [],
        metadata := some
          { github := none,
            npm := some
              { name := .vStr "pkg", version := .vUndef,
                lastPublished := .vUndef,
                author := { name := .vStr "Jane Doe", email := .vNull,
                            url := .vNull },
                maintainers := .vArr [],
                url := "https://www.npmjs.com/package/" ++
                  (JVal.vStr "pkg").disp } } }
      { github := none,
        npm := some
          { name := .vStr "pkg", version := .vUndef,
            lastPublished := .vUndef,
            author := { name := .vStr "Jane Doe", email := .vNull,
                        url := .vNull },
            maintainers := .vArr [],
            url := "https://www.npmjs.com/package/" ++
              (JVal.vStr "pkg").disp } }
      { name := .vStr "pkg", version := .vUndef, lastPublished := .vUndef,
        author := { name := .vStr "Jane Doe", email := .vNull,
                    url := .vNull },
        maintainers := .vArr [],
        url := "https://www.npmjs.com/package/" ++
          (JVal.vStr "pkg").disp }
      rfl rfl rfl).2.2⟩

theorem string_append_ne_of_head (p q m : String) (c d : Char)
    (tp tq : List Char) (hp : p.data = c :: tp) (hq : q.data = d :: tq)
    (hcd : c ≠ d) : p ++ m ≠ q := by
  intro h
  have hd : (p ++ m).data = q.data := by rw [h]
  rw [String.data_append, hp, hq] at hd
  exact hcd (List.head_eq_of_cons_eq hd)

theorem mem_if_singleton (x y : String) (b : Bool)
    (hx : x ∈ (if b then [y] else [])) : x = y := by
  split at hx <;> simp_all

theorem topicsCheck_mem (tem : String → String → String)
    (nfm : String → String) (out : FetchOutcome) (x : String)
    (hx : x ∈ topicsCheck tem nfm out) :
    (∃ m, x = "Error checking repository topics: " ++ m) ∨
      x = "Repository must have the \"maiar\" topic tagged" := by
  cases out with
  | error e =>
    simp only [topicsCheck, List.mem_singleton] at hx
    exact Or.inl ⟨e.message, hx⟩
  | ok td =>
    simp only [topicsCheck] at hx
    cases hn : jget tem td "names" with
    | error m =>
      rw [hn] at hx
      simp at hx
      exact Or.inl ⟨m, hx⟩
    | ok names =>
      rw [hn] at hx
      dsimp only at hx
      cases hi : jcallIncludes tem nfm names "maiar" with
      | error m =>
        rw [hi] at hx
        simp at hx
        exact Or.inl ⟨m, hx⟩
      | ok b =>
        rw [hi] at hx
        cases b with
        | true => simp at hx
        | false =>
          simp at hx
          exact Or.inr hx

theorem npmStep_mem (tem : String → String → String)
    (nfm : String → String) (sub : JVal) (rf : Bool)
    (out : FetchOutcome) (x : String)
    (hx : x ∈ (npmStep tem nfm sub rf out).2) :
    x = "npm package not found" ∨
      (∃ m, x = "Error accessing npm package: " ++ m) ∨
      x = "npm package must be public" ∨
      x = "npm package repository URL must match GitHub repository" := by
  cases out with
  | error e =>
    simp only [npmStep] at hx
    by_cases h4 : e.responseStatus = some 404
    · rw [if_pos h4] at hx
      simp at hx
      exact Or.inl hx
    · rw [if_neg h4] at hx
      simp at hx
      exact Or.inr (Or.inl ⟨e.message, hx⟩)
  | ok nd =>
    simp only [npmStep] at hx
    cases hp : jget tem nd "private" with
    | error m =>
      rw [hp] at hx
      simp at hx
      exact Or.inr (Or.inl ⟨m, hx⟩)
    | ok priv =>
      rw [hp] at hx
      dsimp only at hx
      cases rf with
      | false =>
        simp at hx
        exact Or.inr (Or.inr (Or.inl hx.2))
      | true =>
        cases hrf : jget tem nd "repository" with
        | error m =>
          rw [hrf] at hx
          simp at hx
          rcases hx with ⟨_, h⟩ | h
          · exact Or.inr (Or.inr (Or.inl h))
          · exact Or.inr (Or.inl ⟨m, h⟩)
        | ok repF =>
          rw [hrf] at hx
          dsimp only at hx
          cases how : jget tem sub "owner" with
          | error m =>
            rw [how] at hx
            simp at hx
            rcases hx with ⟨_, h⟩ | h
            · exact Or.inr (Or.inr (Or.inl h))
            · exact Or.inr (Or.inl ⟨m, h⟩)
          | ok ow =>
            rw [how] at hx
            dsimp only at hx
            cases hre : jget tem sub "repo" with
            | error m =>
              rw [hre] at hx
              simp at hx
              rcases hx with ⟨_, h⟩ | h
              · exact Or.inr (Or.inr (Or.inl h))
              · exact Or.inr (Or.inl ⟨m, h⟩)
            | ok rp =>
              rw [hre] at hx
              dsimp only at hx
              cases hinc : jcallIncludes tem nfm
                  (normalizeRepositoryUrl repF)
                  (ow.disp ++ "/" ++ rp.disp) with
              | error m =>
                rw [hinc] at hx
                simp at hx
                rcases hx with ⟨_, h⟩ | h
                · exact Or.inr (Or.inr (Or.inl h))
                · exact Or.inr (Or.inl ⟨m, h⟩)
              | ok b =>
                rw [hinc] at hx
                cases b with
                | true =>
                  simp at hx
                  exact Or.inr (Or.inr (Or.inl hx.2))
                | false =>
                  simp at hx
                  rcases hx with ⟨_, h⟩ | h
                  · exact Or.inr (Or.inr (Or.inl h))
                  · exact Or.inr (Or.inr (Or.inr h))

theorem npmStep_crossref (tem : String → String → String)
    (nfm : String → String) (sub nd npv repF ov rv : JVal) (u : String)
    (hp : jget tem nd "private" = .ok npv)
    (hrf : jget tem nd "repository" = .ok repF)
    (hno : normalizeRepositoryUrl repF = .vStr u)
    (ho : jget tem sub "owner" = .ok ov)
    (hr : jget tem sub "repo" = .ok rv) :
    npmStep tem nfm sub true (.ok nd) =
      (some nd,
        (if npv.truthy then ["npm package must be public"] else []) ++
          (if jsIncludesStr u (ov.disp ++ "/" ++ rv.disp) then []
           else ["npm package repository URL must match GitHub repository"])) := by
  simp only [npmStep, hp, hrf, hno, ho, hr, jcallIncludes]
  split <;> simp_all

theorem repoChecks_no_throw (tem : String → String → String)
    (nfm : String → String) (rd : JVal) (topicsOut : FetchOutcome)
    (pv dv : JVal)
    (hp : jget tem rd "private" = .ok pv)
    (hd : jget tem rd "description" = .ok dv)
    (hsafe : dv.truthy = false ∨ ∃ s, dv = .vStr s) :
    ∃ b1 b2, repoChecks tem nfm rd topicsOut =
      ((if b1 = true then ["Repository must be public"] else []) ++
        (if b2 = true then
          ["Repository must have a clear, descriptive description (minimum 10 characters)"]
         else []) ++ topicsCheck tem nfm topicsOut, none) := by
  by_cases hdt : dv.truthy = true
  · rcases hsafe with hf | ⟨s, rfl⟩
    · rw [hdt] at hf; cases hf
    · refine ⟨pv.truthy, decide ((jsTrim s).length < 10), ?_⟩
      simp only [repoChecks, hp, hd, hdt, jcallTrimLen, Bool.not_true,
        Bool.false_eq_true, if_false]
  · refine ⟨pv.truthy, true, ?_⟩
    simp only [repoChecks, hp, hd, Bool.eq_false_iff.mpr hdt,
      Bool.not_false, if_true, if_pos]

theorem auditPlugin_issues_of_repoOk (tem : String → String → String)
    (nfm : String → String) (rd : JVal) (topicsOut npmOut : FetchOutcome)
    (sub : JVal) (rIss : List String) (out : AuditOut)
    (hfc : fieldsCheck tem sub = .ok false)
    (hrc : repoChecks tem nfm rd topicsOut = (rIss, none))
    (h : auditPlugin tem nfm
        { repoReq := .ok rd, topicsReq := topicsOut, npmReq := npmOut }
        sub = .ok out) :
    out.result.issues = rIss ++ (npmStep tem nfm sub true npmOut).2 := by
  simp only [auditPlugin, hfc, hrc] at h
  obtain ⟨r, he, hf⟩ := exceptMap_ok _ _ _ h
  obtain ⟨hi, _, _⟩ := assembleResult_ok _ _ _ _ _ _ he
  subst hf
  exact hi

/-- C9: when the repository fetch succeeds with a public payload (falsy
`private` flag), a description whose trimmed length is at least 10, and
the topics fetch succeeds with a name list containing "maiar", none of
the three repository-derived issues appears in the result — whatever the
npm fetch outcome. -/
theorem c9_good_repo_no_repo_issues (tem : String → String → String)
    (nfm : String → String) (npmOut : FetchOutcome)
    (sub rv ov nv rd pv td : JVal) (ds : String) (names : List JVal)
    (out : AuditOut)
    (hr : jget tem sub "repo" = .ok rv) (hrt : rv.truthy = true)
    (ho : jget tem sub "owner" = .ok ov) (hot : ov.truthy = true)
    (hn : jget tem sub "npm_package_name" = .ok nv)
    (hnt : nv.truthy = true)
    (hp : jget tem rd "private" = .ok pv) (hpv : pv.truthy = false)
    (hd : jget tem rd "description" = .ok (.vStr ds))
    (hlen : 10 ≤ (jsTrim ds).length)
    (hnames : jget tem td "names" = .ok (.vArr names))
    (hmaiar : JVal.vStr "maiar" ∈ names)
    (hout : auditPlugin tem nfm
        { repoReq := .ok rd, topicsReq := .ok td, npmReq := npmOut }
        sub = .ok out) :
    "Repository must be public" ∉ out.result.issues ∧
      "Repository must have a clear, descriptive description (minimum 10 characters)" ∉
        out.result.issues ∧
      "Repository must have the \"maiar\" topic tagged" ∉
        out.result.issues := by
  have hdt : (JVal.vStr ds).truthy = true := by
    simp only [JVal.truthy]
    by_cases he : ds.isEmpty = true
    · exfalso
      rw [String.isEmpty_iff] at he
      subst he
      simp [jsTrim] at hlen
    · simp [he]
  have hinc : jcallIncludes tem nfm (.vArr names) "maiar" = .ok true := by
    simp only [jcallIncludes, Except.ok.injEq]
    rw [List.any_eq_true]
    exact ⟨.vStr "maiar", hmaiar, by simp⟩
  have htc : topicsCheck tem nfm (.ok td) = [] := by
    simp only [topicsCheck, hnames, hinc, if_true]
  have hrc : repoChecks tem nfm rd (.ok td) = ([], none) := by
    have hnl : ¬ ((jsTrim ds).length < 10) := Nat.not_lt.mpr hlen
    simp only [repoChecks, hp, hpv, hd, hdt, jcallTrimLen, htc]
    simp [hnl, hpv]
  have hfc := fieldsCheck_present tem sub rv ov nv hr hrt ho hot hn hnt
  have hiss := auditPlugin_issues_of_repoOk tem nfm rd (.ok td) npmOut
    sub [] out hfc hrc hout
  rw [hiss]
  simp only [List.nil_append]
  refine ⟨?_, ?_, ?_⟩ <;> intro hmem <;>
    rcases npmStep_mem tem nfm sub true npmOut _ hmem with
      h | ⟨m, h⟩ | h | h <;>
    first
      | exact absurd h (by decide)
      | exact string_append_ne_of_head "Error accessing npm package: "
          _ m 'E' 'R' _ _ rfl rfl (by decide) h.symm

theorem c9_witness :
    jget tem0 (.vObj [("private", .vBool false),
        ("description", .vStr "a very nice plugin!!"),
        ("owner", .vObj [])]) "private" = .ok (.vBool false)
    ∧ (JVal.vBool false).truthy = false
    ∧ 10 ≤ (jsTrim "a very nice plugin!!").length
    ∧ JVal.vStr "maiar" ∈ [JVal.vStr "maiar"]
    ∧ auditPlugin tem0 nfm0
        { repoReq := .ok (.vObj [("private", .vBool false),
            ("description", .vStr "a very nice plugin!!"),
            ("owner", .vObj [])]),
          topicsReq := .ok (.vObj [("names", .vArr [.vStr "maiar"])]),
          npmReq := .error errBoom } sub0 =
      .ok { result := { passed := false,
                        issues := ["Error accessing npm package: boom"],
                        metadata := some
                          { github := some
                              { name := .vUndef, owner := .vUndef,
                                fullName := .vUndef, stars := .vUndef,
                                description :=
                                  .vStr "a very nice plugin!!",
                                topics := .vUndef, lastUpdated := .vUndef,
                                isPublic := true,
                                url := "https://github.com/acme/plugin-x" },
                            npm := none } },
            log := [ReqKind.repoReq, ReqKind.topicsReq, ReqKind.npmReq],
            subAfter := sub0 }
    ∧ "Repository must be public" ∉
        (["Error accessing npm package: boom"] : List String)
    ∧ "Repository must have a clear, descriptive description (minimum 10 characters)" ∉
        (["Error accessing npm package: boom"] : List String)
    ∧ "Repository must have the \"maiar\" topic tagged" ∉
        (["Error accessing npm package: boom"] : List String) := by
  refine ⟨rfl, rfl, by decide, by simp, rfl, ?_⟩
  exact c9_good_repo_no_repo_issues tem0 nfm0 (.error errBoom) sub0
    (.vStr "plugin-x") (.vStr "acme") (.vStr "pkg")
    (.vObj [("private", .vBool false),
      ("description", .vStr "a very nice plugin!!"), ("owner", .vObj [])])
    (.vBool false) (.vObj [("names", .vArr [.vStr "maiar"])])
    "a very nice plugin!!" [.vStr "maiar"] _
    rfl rfl rfl rfl rfl rfl rfl rfl rfl (by decide) rfl (by simp) rfl

/-- C6: when both the repository and the package fetch succeed and the
package's `repository` field normalizes to a string `u` (pass-through
for a string, the `.url` field for an object, empty string otherwise —
witnessed by the three normalization equations), the cross-reference
issue "npm package repository URL must match GitHub repository" appears
in the result exactly when `u` does not contain the substring
`<owner>/<repo>`. -/
theorem c6_cross_reference (tem : String → String → String)
    (nfm : String → String) (topicsOut : FetchOutcome)
    (sub rv ov nv rd pv dv nd npv repF : JVal) (u : String)
    (out : AuditOut)
    (hr : jget tem sub "repo" = .ok rv) (hrt : rv.truthy = true)
    (ho : jget tem sub "owner" = .ok ov) (hot : ov.truthy = true)
    (hn : jget tem sub "npm_package_name" = .ok nv)
    (hnt : nv.truthy = true)
    (hp : jget tem rd "private" = .ok pv)
    (hd : jget tem rd "description" = .ok dv)
    (hdsafe : dv.truthy = false ∨ ∃ s, dv = .vStr s)
    (hnp : jget tem nd "private" = .ok npv)
    (hrf : jget tem nd "repository" = .ok repF)
    (hnorm : normalizeRepositoryUrl repF = .vStr u)
    (hout : auditPlugin tem nfm
        { repoReq := .ok rd, topicsReq := topicsOut, npmReq := .ok nd }
        sub = .ok out) :
    normalizeRepositoryUrl (.vStr u) = .vStr u
    ∧ normalizeRepositoryUrl (.vObj [("url", .vStr u)]) = .vStr u
    ∧ normalizeRepositoryUrl JVal.vNull = .vStr ""
    ∧ ("npm package repository URL must match GitHub repository" ∈
          out.result.issues
        ↔ jsIncludesStr u (ov.disp ++ "/" ++ rv.disp) = false) := by
  refine ⟨?_, ?_, rfl, ?_⟩
  · by_cases hu : u.isEmpty = true
    · simp [normalizeRepositoryUrl, JVal.truthy, JVal.isStrType, hu,
        (String.isEmpty_iff u).mp hu]
    · simp [normalizeRepositoryUrl, JVal.truthy, JVal.isStrType, hu]
  · by_cases hu : u.isEmpty = true
    · simp [normalizeRepositoryUrl, JVal.truthy, JVal.isObjType,
        JVal.isStrType, jgetOpt, hu, (String.isEmpty_iff u).mp hu]
    · simp [normalizeRepositoryUrl, JVal.truthy, JVal.isObjType,
        JVal.isStrType, jgetOpt, hu]
  · obtain ⟨b1, b2, hrc⟩ :=
      repoChecks_no_throw tem nfm rd topicsOut pv dv hp hd hdsafe
    have hfc := fieldsCheck_present tem sub rv ov nv hr hrt ho hot hn hnt
    have hiss := auditPlugin_issues_of_repoOk tem nfm rd topicsOut
      (.ok nd) sub _ out hfc hrc hout
    have hnpm := npmStep_crossref tem nfm sub nd npv repF ov rv u
      hnp hrf hnorm ho hr
    rw [hnpm] at hiss
    rw [hiss]
    constructor
    · intro hmem
      by_contra hcon
      simp only [Bool.not_eq_false] at hcon
      simp only [hcon, if_true, List.append_nil] at hmem
      rcases List.mem_append.mp hmem with hm | hm
      · rcases List.mem_append.mp hm with hm2 | hm2
        · rcases List.mem_append.mp hm2 with hm3 | hm3
          · exact absurd (mem_if_singleton _ _ _ hm3) (by decide)
          · exact absurd (mem_if_singleton _ _ _ hm3) (by decide)
        · rcases topicsCheck_mem tem nfm topicsOut _ hm2 with
            ⟨m, hmm⟩ | hmm
          · exact string_append_ne_of_head
              "Error checking repository topics: " _ m 'E' 'n' _ _
              rfl rfl (by decide) hmm.symm
          · exact absurd hmm (by decide)
      · exact absurd (mem_if_singleton _ _ _ hm) (by decide)
    · intro hfalse
      rw [hfalse]
      simp

theorem c6_witness :
    normalizeRepositoryUrl (.vObj [("url",
        .vStr "git+https://github.com/acme/plugin-x.git")]) =
      .vStr "git+https://github.com/acme/plugin-x.git"
    ∧ jsIncludesStr "git+https://github.com/acme/plugin-x.git"
        ((JVal.vStr "acme").disp ++ "/" ++ (JVal.vStr "plugin-x").disp) =
      true
    ∧ auditPlugin tem0 nfm0
        { repoReq := .ok (.vObj [("private", .vBool false),
            ("description", .vStr "a very nice plugin!!"),
            ("owner", .vObj [])]),
          topicsReq := .ok (.vObj [("names", .vArr [.vStr "maiar"])]),
          npmReq := .ok (.vObj [("repository", .vObj [("url",
            .vStr "git+https://github.com/acme/plugin-x.git")])]) }
        sub0 =
      .ok { result := { passed := true, issues := [],
                        metadata := some
                          { github := some
                              { name := .vUndef, owner := .vUndef,
                                fullName := .vUndef, stars := .vUndef,
                                description :=
                                  .vStr "a very nice plugin!!",
                                topics := .vUndef,
                                lastUpdated := .vUndef, isPublic := true,
                                url := "https://github.com/acme/plugin-x" },
                            npm := some
                              { name := .vStr "pkg", version := .vUndef,
                                lastPublished := .vUndef,
                                author := { name := .vUndef,
                                            email := .vNull,
                                            url := .vNull },
                                maintainers := .vArr [],
                                url := "https://www.npmjs.com/package/pkg" } } },
            log := [ReqKind.repoReq, ReqKind.topicsReq, ReqKind.npmReq],
            subAfter := sub0 }
    ∧ ("npm package repository URL must match GitHub repository" ∈
          ([] : List String)
        ↔ jsIncludesStr "git+https://github.com/acme/plugin-x.git"
            ((JVal.vStr "acme").disp ++ "/" ++
              (JVal.vStr "plugin-x").disp) = false) :=
  ⟨rfl, rfl, rfl,
    (c6_cross_reference tem0 nfm0
      (.ok (.vObj [("names", .vArr [.vStr "maiar"])])) sub0
      (.vStr "plugin-x") (.vStr "acme") (.vStr "pkg")
      (.vObj [("private", .vBool false),
        ("description", .vStr "a very nice plugin!!"),
        ("owner", .vObj [])])
      (.vBool false) (.vStr "a very nice plugin!!")
      (.vObj [("repository", .vObj [("url",
        .vStr "git+https://github.com/acme/plugin-x.git")])])
      .vUndef
      (.vObj [("url", .vStr "git+https://github.com/acme/plugin-x.git")])
      "git+https://github.com/acme/plugin-x.git" _
      rfl rfl rfl rfl rfl rfl rfl rfl
      (Or.inr ⟨"a very nice plugin!!", rfl⟩) rfl rfl rfl rfl).2.2.2⟩
